import Mathlib

/-!
Shallow embedding of the product-scrape pipeline of
`src/src/single_product_scraper.py` (TheDisinfectantProject): the variant
state machine of `scrape_single_product`, the size extraction loop, the
tiered image acquisition (`_fetch_image_bytes`, `_download_image`), the
manifest loop of `_save_product_data_to_files`, and the memoizing OCR layer
(`_get_ocr_client`, `_run_ocr_from_file`) with the OCR back-fill phase.
Selenium element handles are modelled as records of the attributes the code
reads, the browser DOM as explicit state, and the filesystem as a finite map.
-/

namespace Scraper

/-- Python truthiness of an optional string attribute (Selenium
`get_attribute` returns `None` for an absent attribute): `None` and the empty
string are falsy. -/
def pyTruthy : Option String → Bool
  | none => false
  | some s => s ≠ ""

/-- Python `a or b` on strings: the empty string is falsy. -/
def pyOr (a b : String) : String := if a = "" then b else a

/-- Python `attr or default` where `attr` is an optional attribute value. -/
def attrOr (a : Option String) (d : String) : String :=
  match a with
  | none => d
  | some s => pyOr s d

/-- Python `a or b` on optional strings (used for `current_img_src or
initial_img_src`). -/
def pyOrOpt (a b : Option String) : Option String := if pyTruthy a then a else b

/-- Python `str.strip()` (and the JS `trim` the code applies to DOM text):
whitespace removed from both ends. -/
def pyStrip (s : String) : String :=
  ⟨((s.toList.dropWhile Char.isWhitespace).reverse.dropWhile Char.isWhitespace).reverse⟩

/-- Python `str.upper()`: characters uppercased one by one. -/
def pyUpper (s : String) : String := ⟨s.toList.map Char.toUpper⟩

/-- `_get_text_js`: the element's `textContent`, stripped (the `innerText`
fallback is conflated into the one text field of the element model). -/
def getTextJs (textContent : String) : String := pyStrip textContent

/-- Substring test, modelling Python `needle in hay`. -/
def strContains (hay needle : String) : Bool :=
  hay.toList.tails.any (fun t => needle.toList.isPrefixOf t)

/-- The availability computation the loop applies to every style and size
value item: `data_disabled = el.get_attribute('data-disabled') or 'false'`
followed by `data_disabled == 'false'`. -/
def computeAvailable (dataDisabled : Option String) : Bool :=
  attrOr dataDisabled "false" = "false"

/-! ### First-occurrence deduplication

The source deduplicates sizes by name (`if not any(s['name'] == size_name
for s in sizes)`) and OCR texts by value (`if text not in seen`); both keep
the first occurrence and drop later duplicates.  One keyed accumulator-based
dedupe covers both. -/

/-- Append `x` unless an element with its key is already present. -/
def insertByKey [DecidableEq β] (key : α → β) (acc : List α) (x : α) : List α :=
  if acc.any (fun y => key y = key x) then acc else acc ++ [x]

/-- Fold `insertByKey` over a list, starting from `acc`. -/
def dedupeByAux [DecidableEq β] (key : α → β) : List α → List α → List α
  | acc, [] => acc
  | acc, x :: rest => dedupeByAux key (insertByKey key acc x) rest

/-- First-occurrence deduplication by key. -/
def dedupeBy [DecidableEq β] (key : α → β) (l : List α) : List α :=
  dedupeByAux key [] l

/-! ### Size extraction (`scrape_single_product`, size loop)

Per size value item the code reads the name (title attribute of the
`valueItemText` span, else its text, with a fallback to the element's own
text or title), strips it, skips empty names, reads availability from
`data-disabled`, and appends unless the name was already collected. -/

/-- The `span[class*="valueItemText"]` child: its `title` attribute and its
text content. -/
structure SpanEl where
  titleAttr : Option String
  textContent : String
deriving DecidableEq, Repr

/-- A size value item as the size loop reads it. -/
structure SizeElement where
  span : Option SpanEl
  textContent : String
  titleAttr : Option String
  dataDisabled : Option String
deriving DecidableEq, Repr

/-- The `SizeInfo` dataclass. -/
structure SizeInfo where
  name : String
  available : Bool
deriving DecidableEq, Repr

/-- Size name resolution: `tag.get_attribute('title') or _get_text_js(tag)`
when the span is present, else `_get_text_js(el) or el.get_attribute('title')
or ""`; the result is stripped. -/
def sizeNameOf (e : SizeElement) : String :=
  (match e.span with
   | some sp => pyOr (attrOr sp.titleAttr "") (getTextJs sp.textContent)
   | none => pyOr (getTextJs e.textContent) (attrOr e.titleAttr ""))

/-- The per-item name/availability records before deduplication (empty names
dropped by the `continue`). -/
def cleanedSizes (elems : List SizeElement) : List SizeInfo :=
  elems.filterMap (fun e =>
    let n := sizeNameOf e
    if n = "" then none else some ⟨n, computeAvailable e.dataDisabled⟩)

/-- The body of the size loop for one element: skip empty names, skip
duplicate names, else append the new `SizeInfo`. -/
def sizeStep (acc : List SizeInfo) (e : SizeElement) : List SizeInfo :=
  let n := sizeNameOf e
  if n = "" then acc
  else if acc.any (fun s => s.name = n) then acc
  else acc ++ [⟨n, computeAvailable e.dataDisabled⟩]

/-- The size loop with its accumulator `sizes`. -/
def extractSizesAux : List SizeInfo → List SizeElement → List SizeInfo
  | sizes, [] => sizes
  | sizes, e :: rest => extractSizesAux (sizeStep sizes e) rest

/-- The size list of one style variant, as the loop produces it. -/
def extractSizes (elems : List SizeElement) : List SizeInfo :=
  extractSizesAux [] elems

/-! ### The variant state machine (`scrape_single_product`, style loop)

A style value item carries the attributes the loop reads; the browser DOM
visible to the loop (main image `src`, whether the SKU container can be
re-found after a click, and the size axis contents) is explicit state, and a
click is a page-supplied transition on that state. -/

/-- A style value item: `data-disabled`, the `valueItemText` span (name), the
`valueItemImg` tag with its `src` attribute, and the raw element text used
only by the method-4 keyword filter. -/
structure StyleElement where
  dataDisabled : Option String
  nameSpan : Option SpanEl
  imgTag : Option (Option String)
  rawText : String
deriving DecidableEq, Repr

/-- The DOM state the loop observes between interactions. -/
structure DomState where
  skuContainerPresent : Bool
  sizeAxis : Option (List SizeElement)
  mainImgSrc : Option String
deriving DecidableEq, Repr

/-- One interaction the loop performs on the page for a variant. -/
inductive InteractionEvent where
  | clicked (index : Nat)
  | imageSettled (index : Nat)
deriving DecidableEq, Repr

/-- One entry of `all_styles_data` (image `none` stands for a Python `None`
value; the sentinel is the literal string `"N/A"`). -/
structure StyleData where
  style_name : String
  image_url : Option String
  available : Bool
  sizes : List SizeInfo
deriving DecidableEq, Repr

/-- Style name resolution: the `valueItemText` span's `title` attribute, else
its stripped text; if the span is missing the fallback `Style_{index+1}` is
used. -/
def styleNameOf (e : StyleElement) (index : Nat) : String :=
  match e.nameSpan with
  | none => "Style_" ++ toString (index + 1)
  | some sp => pyOr (attrOr sp.titleAttr "") (pyStrip sp.textContent)

/-- The thumbnail image read in the same `try` block as the name: the `img`
tag's `src` if the span and the tag are present, else the `"N/A"` sentinel. -/
def thumbImageOf (e : StyleElement) : Option String :=
  match e.nameSpan with
  | none => some "N/A"
  | some _ =>
    match e.imgTag with
    | none => some "N/A"
    | some srcAttr => srcAttr

/-- Step 4 of the loop: re-find the SKU container, find the size SKU item,
extract the sizes; a missing container or size section yields `[]`. -/
def sizesPhase (dom : DomState) : List SizeInfo :=
  if dom.skuContainerPresent then
    match dom.sizeAxis with
    | none => []
    | some elems => extractSizes elems
  else []

/-- Result of processing one style element. -/
structure StepOut where
  data : StyleData
  dom : DomState
  events : List InteractionEvent
deriving Repr

/-- The body of the style loop for the element at `index`: availability from
`data-disabled`, name and thumbnail, then (only if available) the click and
the bounded wait for the main image to settle, then size extraction against
the re-found post-click DOM. -/
def processStyle (clickEffect : Nat → DomState → DomState) (index : Nat)
    (e : StyleElement) (dom : DomState) : StepOut :=
  let avail := computeAvailable e.dataDisabled
  let name := styleNameOf e index
  let img0 := thumbImageOf e
  if avail then
    let initialSrc := dom.mainImgSrc
    let dom1 := clickEffect index dom
    if pyTruthy initialSrc then
      let currentSrc := dom1.mainImgSrc
      let img1 :=
        if pyTruthy currentSrc && decide (currentSrc ≠ initialSrc) then currentSrc
        else if img0 = some "N/A" then pyOrOpt currentSrc initialSrc
        else img0
      { data := { style_name := name, image_url := img1, available := true,
                  sizes := sizesPhase dom1 },
        dom := dom1,
        events := [InteractionEvent.clicked index, InteractionEvent.imageSettled index] }
    else
      { data := { style_name := name, image_url := img0, available := true,
                  sizes := sizesPhase dom1 },
        dom := dom1,
        events := [InteractionEvent.clicked index] }
  else
    { data := { style_name := name, image_url := img0, available := false,
                sizes := sizesPhase dom },
      dom := dom,
      events := [] }

/-- Result of the whole style loop. -/
structure RunOut where
  datas : List StyleData
  dom : DomState
  events : List InteractionEvent
deriving Repr

/-- The style loop from position `i` onwards. -/
def runVariantsAux (clickEffect : Nat → DomState → DomState) :
    Nat → List StyleElement → DomState → RunOut
  | _, [], dom => { datas := [], dom := dom, events := [] }
  | i, e :: rest, dom =>
    let step := processStyle clickEffect i e dom
    let restOut := runVariantsAux clickEffect (i + 1) rest step.dom
    { datas := step.data :: restOut.datas, dom := restOut.dom,
      events := step.events ++ restOut.events }

/-- The whole style loop, from index 0 on the initial DOM. -/
def runVariants (clickEffect : Nat → DomState → DomState)
    (elems : List StyleElement) (dom : DomState) : RunOut :=
  runVariantsAux clickEffect 0 elems dom

/-! ### Locating the SKU container and the style axis -/

/-- The ordered SKU container selectors. -/
def sku_selectors : List String :=
  ["div[class*=\"skuWrapper\"]", "div[class*=\"sku\"]", "div[class*=\"Sku\"]",
   ".tb-sku", ".sku-inner"]

/-- First container selector the page answers, if any (each `wait.until`
either finds the container or times out). -/
def locateSkuContainer (containerHit : String → Bool) : Option String :=
  sku_selectors.find? containerHit

/-- A `skuItem` block: the label text and title inside its `labelWrap`, and
its value items. -/
structure SkuItem where
  labelText : String
  labelTitle : Option String
  valueItems : List StyleElement
deriving DecidableEq, Repr

/-- The style-axis label candidates of method 1. -/
def colorLabelCandidates : List String :=
  ["颜色分类", "颜色", "口味", "款式", "风格", "规格"]

/-- Method 1 label match: `span[@title=cand or contains(text(), cand)]`. -/
def labelMatchesColor (it : SkuItem) : Bool :=
  colorLabelCandidates.any (fun cand =>
    it.labelTitle == some cand || strContains it.labelText cand)

/-- Method 1: the first `skuItem` whose label matches a style-axis
candidate. -/
def firstColorItem (items : List SkuItem) : Option SkuItem :=
  items.find? labelMatchesColor

/-- The size-axis label candidates of `_find_size_sku_item`. -/
def sizeLabelCandidates : List String := ["尺码", "尺寸", "Size"]

/-- Size label match: `normalize-space()=cand or @title=cand` (normalization
modelled as stripping). -/
def labelMatchesSize (it : SkuItem) : Bool :=
  sizeLabelCandidates.any (fun cand =>
    pyStrip it.labelText == cand || it.labelTitle == some cand)

/-- `_find_size_sku_item` over the container's `skuItem` blocks. -/
def find_size_sku_item (items : List SkuItem) : Option SkuItem :=
  items.find? labelMatchesSize

/-- The size keyword list of method 4, verbatim from the source. -/
def size_keywords : List String :=
  ["尺码", "size", "均码", "S", "M", "L", "XL", "XXL", "XXXL"]

/-- Method 4 filter: keep clickables whose uppercased text contains no size
keyword and whose stripped text is non-empty. -/
def method4Filter (cands : List StyleElement) : List StyleElement :=
  cands.filter (fun e =>
    !(size_keywords.any (fun k => strContains (pyUpper e.rawText) k)) &&
      pyStrip e.rawText != "")

/-- Everything of the page the scrape skeleton reads: which container
selectors answer, the `skuItem` blocks of the container, the results of the
fallback style-discovery methods 2 and 3, the clickable candidates of
method 4, the initial DOM state and the click transition. -/
structure PageModel where
  containerHit : String → Bool
  skuItems : List SkuItem
  method2 : List StyleElement
  method3 : List StyleElement
  method4Candidates : List StyleElement
  initialDom : DomState
  clickEffect : Nat → DomState → DomState

/-- The style-element discovery cascade: method 1 (style-axis label), then
methods 2 and 3 (alternative selectors), then method 4 (keyword-filtered
clickables); a method is consulted only when all earlier ones produced no
elements. -/
def findStyleElements (p : PageModel) : List StyleElement :=
  let m1 := match firstColorItem p.skuItems with
    | some it => it.valueItems
    | none => []
  if m1 ≠ [] then m1
  else if p.method2 ≠ [] then p.method2
  else if p.method3 ≠ [] then p.method3
  else method4Filter p.method4Candidates

/-- What one call of `scrape_single_product` produces: the styles part of the
result dict (or `none` for a `return None`), the diagnostic snapshot files it
wrote, and the interactions it performed. -/
structure ScrapeRun where
  record : Option (List StyleData)
  snapshots : List String
  events : List InteractionEvent
deriving Repr

/-- The control skeleton of `scrape_single_product`: locate the SKU
container (abort with a page-source snapshot if no selector answers),
discover style elements (abort with a container-HTML snapshot if all four
methods fail), else run the style loop and emit the record. -/
def scrape_single_product (p : PageModel) : ScrapeRun :=
  match locateSkuContainer p.containerHit with
  | none =>
    { record := none, snapshots := ["debug_page_source.html"], events := [] }
  | some _ =>
    let styleEls := findStyleElements p
    if styleEls = [] then
      { record := none, snapshots := ["debug_sku_container.html"], events := [] }
    else
      let run := runVariants p.clickEffect styleEls p.initialDom
      { record := some run.datas, snapshots := [], events := run.events }

/-! ### Image acquisition (`_fetch_image_bytes`, `_download_image`) and the
manifest loops of `_save_product_data_to_files`

The two browser-driven fetch tiers are modelled as oracles of the
environment; `_fetch_image_bytes` also reports which tiers it ran.  The
local path `dest_dir/{prefix}_{index}_{hash(url)}{ext}` is modelled as a
record of the values that determine it, and the filesystem as a finite
map over such paths. -/

/-- Image content. -/
abbrev ImageBytes := List Nat

/-- The computed local filename `{prefix}_{index}_{short_hash(url)}{ext}`
inside `dest_dir`, recorded by the values that determine it. -/
structure LocalPath where
  dir : String
  pfx : String
  index : Nat
  url : String
deriving DecidableEq, Repr

/-- The acquisition environment: what each fetch tier would return per URL,
whether writing a given local path succeeds, whether the cleanup
`os.remove` at a given path succeeds (the source swallows the `OSError`
when it does not), and what a failed `open`/`write` attempt leaves behind
at the path before the cleanup runs — `none` when the open never touched
the file (any pre-existing file stays as it was), `some b` when the attempt
created or truncated the file, leaving the partial bytes `b`. -/
structure DownloadEnv where
  tier1 : String → Option ImageBytes
  tier2 : String → Option ImageBytes
  writeOk : LocalPath → Bool
  removeOk : LocalPath → Bool
  failedWriteEffect : LocalPath → Option ImageBytes

/-- `_fetch_image_bytes`: the new-tab fetch (`_dom_fetch_image_new_tab`)
first, the in-page credentialed fetch (`_browser_fetch_image`) only if the
first returned nothing; the second component records the tiers that ran. -/
def _fetch_image_bytes (env : DownloadEnv) (url : String) :
    Option ImageBytes × List String :=
  match env.tier1 url with
  | some c => (some c, ["_dom_fetch_image_new_tab"])
  | none => (env.tier2 url, ["_dom_fetch_image_new_tab", "_browser_fetch_image"])

/-- The filesystem: a finite map from local paths to bytes. -/
abbrev FS := List (LocalPath × ImageBytes)

/-- Delete the file at `p` if present (`os.remove`). -/
def fsRemove (fs : FS) (p : LocalPath) : FS :=
  fs.filter (fun e => e.1 ≠ p)

/-- Write `b` at `p`, replacing any previous content. -/
def fsWrite (fs : FS) (p : LocalPath) (b : ImageBytes) : FS :=
  (p, b) :: fsRemove fs p

/-- The bytes stored at `p`, if a file exists there. -/
def fsGet : FS → LocalPath → Option ImageBytes
  | [], _ => none
  | e :: rest, p => if e.1 = p then some e.2 else fsGet rest p

/-- The cleanup block `if os.path.exists(local_path): os.remove(local_path)`
inside `try/except OSError: pass`: removal is attempted only when a file
exists at the path, and a removal error leaves the file in place. -/
def fsTryRemove (env : DownloadEnv) (fs : FS) (p : LocalPath) : FS :=
  match fsGet fs p with
  | none => fs
  | some _ => if env.removeOk p then fsRemove fs p else fs

/-- The state the failed `open`/`write` attempt leaves at the path before
the cleanup runs: either the file was never touched, or it was created or
truncated and now holds the partial bytes. -/
def applyFailedWrite (env : DownloadEnv) (fs : FS) (p : LocalPath) : FS :=
  match env.failedWriteEffect p with
  | none => fs
  | some b => fsWrite fs p b

/-- `_download_image`: empty URL returns `None`; otherwise fetch, and on
fetch failure attempt to delete any existing file at the computed path
(`try/except OSError: pass`) and return `None`; on fetch success write the
file, and if the write fails attempt to delete the (possibly partial,
possibly pre-existing) file the same way and return `None`, else return the
local path. -/
def _download_image (env : DownloadEnv) (fs : FS) (url : String)
    (dir pfx : String) (index : Nat) : Option LocalPath × FS :=
  if url = "" then (none, fs)
  else
    let path : LocalPath := { dir := dir, pfx := pfx, index := index, url := url }
    match (_fetch_image_bytes env url).1 with
    | none => (none, fsTryRemove env fs path)
    | some content =>
      if env.writeOk path then (some path, fsWrite fs path content)
      else (none, fsTryRemove env (applyFailedWrite env fs path) path)

/-- One manifest entry: `{url, file}` (the original filename field carries no
information beyond the URL and is left out). -/
structure ManifestEntry where
  url : String
  file : LocalPath
deriving DecidableEq, Repr

/-- The per-category download loop of `_save_product_data_to_files`:
enumerate the URLs (the index advances for every list element), skip empty
and already-seen URLs, download, and append a manifest entry only when a
local path came back. -/
def downloadLoop (env : DownloadEnv) (dir pfx : String) :
    List String → Nat → List String → FS → List ManifestEntry × FS
  | [], _, _, fs => ([], fs)
  | url :: rest, idx, seen, fs =>
    if url = "" ∨ url ∈ seen then downloadLoop env dir pfx rest (idx + 1) seen fs
    else
      match _download_image env fs url dir pfx idx with
      | (some p, fs1) =>
        let restOut := downloadLoop env dir pfx rest (idx + 1) (url :: seen) fs1
        ({ url := url, file := p } :: restOut.1, restOut.2)
      | (none, fs1) => downloadLoop env dir pfx rest (idx + 1) (url :: seen) fs1

/-! ### OCR enrichment (`_get_ocr_client`, `_run_ocr_from_file`) and the
back-fill phase of `_save_product_data_to_files`

The PaddleOCR engine is an oracle of the environment; `_run_ocr_from_file`
memoizes per absolute path (keys modelled as the path strings the caller
passes) in a session-scoped dict that also caches `None` results, and calls
the engine only on a cache miss with an available client. -/

/-- An `OCRResult`: source identifier and concatenated recognized text (the
per-line boxes and scores play no role in the verified properties). -/
structure OcrDoc where
  image_url : String
  full_text : String
deriving DecidableEq, Repr

/-- The OCR environment: whether the library imports and whether the engine
initializes (`_get_ocr_client`), the size of each local file, and what
`_run_ocr_core` returns per path (`none` for a recognition failure). -/
structure OcrEnv where
  importOk : Bool
  initOk : Bool
  fileSize : String → Option Nat
  engineResult : String → Option OcrDoc

/-- `_get_ocr_client`: a client exists iff the import and the engine
initialization both succeed. -/
def _get_ocr_client (env : OcrEnv) : Bool := env.importOk && env.initOk

/-- The session OCR state: the memo dict (which may cache `none`) and the
log of engine invocations. -/
structure OcrState where
  cache : List (String × Option OcrDoc)
  engineCalls : List String
deriving DecidableEq, Repr

/-- Dict lookup (`cache_key in cache`). -/
def cacheLookup : List (String × Option OcrDoc) → String → Option (Option OcrDoc)
  | [], _ => none
  | e :: rest, k => if e.1 = k then some e.2 else cacheLookup rest k

/-- `_run_ocr_from_file`: empty path, missing file and empty file return
`None` without touching the cache; a cached key returns the memo (a memoized
`None` included); an unavailable client caches and returns `None`; else the
engine runs once and its result is cached. -/
def _run_ocr_from_file (env : OcrEnv) (st : OcrState) (path : String) :
    Option OcrDoc × OcrState :=
  if path = "" then (none, st)
  else
    match env.fileSize path with
    | none => (none, st)
    | some 0 => (none, st)
    | some (_ + 1) =>
      match cacheLookup st.cache path with
      | some cached => (cached, st)
      | none =>
        if _get_ocr_client env then
          let r := env.engineResult path
          (r, { cache := (path, r) :: st.cache,
                engineCalls := st.engineCalls ++ [path] })
        else
          (none, { st with cache := (path, none) :: st.cache })

/-- A `StyleInfo` dataclass as the back-fill phase sees it. -/
structure StyleFull where
  style_name : String
  image_url : Option String
  available : Bool
  sizes : List SizeInfo
  ocr : Option OcrDoc
deriving DecidableEq, Repr

/-- The OCR-related part of `ProductDetails`. -/
structure DetailsRec where
  image_details : List String
  image_details_ocr : List OcrDoc
  main_images_ocr_text : String
  detail_images_ocr_text : String
deriving DecidableEq, Repr

/-- Result of the main-image OCR loop: the updated styles, the collected
`main_texts`, and the OCR state. -/
structure MainLoopOut where
  styles : List StyleFull
  texts : List String
  st : OcrState
deriving Repr

/-- The loop over styles: recognize the downloaded main image of each style
whose URL the manifest mapped to a local file, back-fill `style.ocr`, and
collect the non-empty texts in style order. -/
def ocrMainLoop (env : OcrEnv) (mMap : String → Option String) :
    List StyleFull → OcrState → MainLoopOut
  | [], st => { styles := [], texts := [], st := st }
  | style :: rest, st =>
    match style.image_url with
    | none =>
      let r := ocrMainLoop env mMap rest st
      { styles := style :: r.styles, texts := r.texts, st := r.st }
    | some u =>
      match mMap u with
      | none =>
        let r := ocrMainLoop env mMap rest st
        { styles := style :: r.styles, texts := r.texts, st := r.st }
      | some localPath =>
        match _run_ocr_from_file env st localPath with
        | (none, st1) =>
          let r := ocrMainLoop env mMap rest st1
          { styles := style :: r.styles, texts := r.texts, st := r.st }
        | (some doc, st1) =>
          let r := ocrMainLoop env mMap rest st1
          { styles := { style with ocr := some doc } :: r.styles,
            texts := (if doc.full_text ≠ "" then [doc.full_text] else []) ++ r.texts,
            st := r.st }

/-- Result of the detail-image OCR loop. -/
structure DetailLoopOut where
  docs : List OcrDoc
  st : OcrState
deriving Repr

/-- The loop over detail image URLs: recognize each downloaded detail image
and collect the successful `OCRResult`s in list order. -/
def ocrDetailLoop (env : OcrEnv) (dMap : String → Option String) :
    List String → OcrState → DetailLoopOut
  | [], st => { docs := [], st := st }
  | url :: rest, st =>
    match dMap url with
    | none => ocrDetailLoop env dMap rest st
    | some localPath =>
      match _run_ocr_from_file env st localPath with
      | (none, st1) => ocrDetailLoop env dMap rest st1
      | (some doc, st1) =>
        let r := ocrDetailLoop env dMap rest st1
        { docs := doc :: r.docs, st := r.st }

/-- Result of the whole OCR back-fill phase, with the collected intermediate
lists kept for inspection. -/
structure OcrPhaseOut where
  styles : List StyleFull
  details : DetailsRec
  st : OcrState
  mainTexts : List String
  detailDocs : List OcrDoc
deriving Repr

/-- The OCR phase of `_save_product_data_to_files`: run both loops over
local files, then set `detail_images_ocr_text` to the plain join of the
non-empty detail texts (only if any detail image was recognized) and
`main_images_ocr_text` to the join of the first-occurrence-deduplicated
main texts (only if any was collected). -/
def runOcrPhase (env : OcrEnv) (st : OcrState) (styles : List StyleFull)
    (details : DetailsRec) (mMap dMap : String → Option String) : OcrPhaseOut :=
  let m := ocrMainLoop env mMap styles st
  let d := ocrDetailLoop env dMap details.image_details m.st
  let details1 :=
    if d.docs ≠ [] then
      { details with
        image_details_ocr := d.docs,
        detail_images_ocr_text :=
          String.intercalate "\n" (d.docs.filterMap (fun r =>
            if r.full_text = "" then none else some r.full_text)) }
    else details
  let details2 :=
    if m.texts ≠ [] then
      { details1 with
        main_images_ocr_text :=
          String.intercalate "\n" (dedupeBy (fun t : String => t) m.texts) }
    else details1
  { styles := m.styles, details := details2, st := d.st,
    mainTexts := m.texts, detailDocs := d.docs }

/-! ### Concrete instances used by witnesses and counterexamples -/

/-- A click transition that leaves the DOM unchanged. -/
def idClick : Nat → DomState → DomState := fun _ d => d

/-- A page whose SKU container is found by the first selector but on which
all four style-discovery methods come up empty (its only `skuItem` is the
size axis and its one clickable carries a size keyword). -/
def pageStylesMissing : PageModel where
  containerHit := fun s => s == "div[class*=\"skuWrapper\"]"
  skuItems := [{ labelText := "尺码", labelTitle := some "尺码", valueItems := [] }]
  method2 := []
  method3 := []
  method4Candidates := []
  initialDom :=
    { skuContainerPresent := true, sizeAxis := some [], mainImgSrc := none }
  clickEffect := idClick

/-- A size-only product page: the SKU container is present, a size axis with
one in-stock size exists, but there is no style/color axis and the only
clickable value item is the size `均码`, which the method-4 keyword filter
drops. -/
def pageSizeOnly : PageModel where
  containerHit := fun s => s == "div[class*=\"skuWrapper\"]"
  skuItems :=
    [{ labelText := "尺码", labelTitle := some "尺码", valueItems := [] }]
  method2 := []
  method3 := []
  method4Candidates :=
    [{ dataDisabled := none,
       nameSpan := some { titleAttr := some "均码", textContent := "均码" },
       imgTag := none, rawText := "均码" }]
  initialDom :=
    { skuContainerPresent := true,
      sizeAxis := some [{ span := some { titleAttr := some "均码", textContent := "均码" },
                          textContent := "均码", titleAttr := none,
                          dataDisabled := some "false" }],
      mainImgSrc := some "main.jpg" }
  clickEffect := idClick

/-- A size value item whose `data-disabled` attribute is absent. -/
def sizeElemNoDisabled : SizeElement where
  span := some { titleAttr := some "M", textContent := "M" }
  textContent := "M"
  titleAttr := none
  dataDisabled := none

/-- A sold-out style value item (`data-disabled="true"`). -/
def soldOutStyle : StyleElement where
  dataDisabled := some "true"
  nameSpan := some { titleAttr := some "Red", textContent := "Red" }
  imgTag := some (some "thumb_red.jpg")
  rawText := "Red"

/-- A DOM state with a main image and a size axis. -/
def wDom : DomState where
  skuContainerPresent := true
  sizeAxis := some [{ span := some { titleAttr := some "M", textContent := "M" },
                      textContent := "M", titleAttr := none, dataDisabled := some "false" }]
  mainImgSrc := some "main.jpg"

/-- An acquisition environment in which both fetch tiers fail for every
URL and the filesystem behaves normally. -/
def envBothTiersFail : DownloadEnv where
  tier1 := fun _ => none
  tier2 := fun _ => none
  writeOk := fun _ => true
  removeOk := fun _ => true
  failedWriteEffect := fun _ => none

/-- An acquisition environment in which tier 1 returns bytes but every file
write fails after truncating the file to a partial byte, while the cleanup
removal succeeds. -/
def envWriteFails : DownloadEnv where
  tier1 := fun _ => some [1, 2]
  tier2 := fun _ => none
  writeOk := fun _ => false
  removeOk := fun _ => true
  failedWriteEffect := fun _ => some [1]

/-- An acquisition environment in which both fetch tiers fail and the
cleanup `os.remove` raises `OSError` (swallowed by the source) at every
path. -/
def envRemoveFails : DownloadEnv where
  tier1 := fun _ => none
  tier2 := fun _ => none
  writeOk := fun _ => true
  removeOk := fun _ => false
  failedWriteEffect := fun _ => none

/-- The local path `_download_image` computes for URL `"u"` at index 1 in
the main-image directory. -/
def wPath : LocalPath where
  dir := "images/main"
  pfx := "main"
  index := 1
  url := "u"

/-- An OCR environment whose library import fails; its engine would return
text, showing the degradation is due to the unavailable client. -/
def envOcrOff : OcrEnv where
  importOk := false
  initOk := true
  fileSize := fun _ => some 1
  engineResult := fun p => some { image_url := p, full_text := "T" }

/-- An OCR environment with a working engine that recognizes the same text
`"X"` in every image. -/
def envOcrX : OcrEnv where
  importOk := true
  initOk := true
  fileSize := fun _ => some 1
  engineResult := fun p => some { image_url := p, full_text := "X" }

/-- Details with two distinct detail-image URLs and empty OCR fields. -/
def detailsTwo : DetailsRec where
  image_details := ["u1", "u2"]
  image_details_ocr := []
  main_images_ocr_text := ""
  detail_images_ocr_text := ""

/-- The manifest map sending the two detail URLs to two distinct local
files. -/
def dMapTwo : String → Option String :=
  fun u => if u = "u1" then some "p1" else if u = "u2" then some "p2" else none

/-- A style list for the witness of the unavailable-engine claim. -/
def wStyles : List StyleFull :=
  [{ style_name := "Red", image_url := some "u1", available := true,
     sizes := [{ name := "M", available := true }], ocr := none }]

/-! ### Helper lemmas: first-occurrence deduplication and the size loop -/

theorem dedupeByAux_append {β : Type _} [DecidableEq β] (key : α → β)
    (l : List α) : ∀ acc : List α,
    ∃ d, dedupeByAux key acc l = acc ++ d ∧ d.Sublist l := by
  induction l with
  | nil => intro acc; exact ⟨[], by simp [dedupeByAux]⟩
  | cons x rest ih =>
    intro acc
    rw [dedupeByAux]
    simp only [insertByKey]
    by_cases h : acc.any (fun y => key y = key x)
    · rw [if_pos h]
      obtain ⟨d, hd, hsub⟩ := ih acc
      exact ⟨d, hd, hsub.cons x⟩
    · rw [if_neg h]
      obtain ⟨d, hd, hsub⟩ := ih (acc ++ [x])
      exact ⟨x :: d, by simpa using hd, hsub.cons₂ x⟩

theorem mem_dedupeByAux_of_mem_acc {β : Type _} [DecidableEq β] (key : α → β)
    (l : List α) (acc : List α) (x : α) (hx : x ∈ acc) :
    x ∈ dedupeByAux key acc l := by
  obtain ⟨d, hd, _⟩ := dedupeByAux_append key l acc
  rw [hd]
  exact List.mem_append_left _ hx

theorem nodup_dedupeByAux {β : Type _} [DecidableEq β] (key : α → β)
    (l : List α) : ∀ acc : List α,
    ((acc.map key).Nodup) → ((dedupeByAux key acc l).map key).Nodup := by
  induction l with
  | nil => intro acc h; simpa [dedupeByAux] using h
  | cons x rest ih =>
    intro acc h
    rw [dedupeByAux]
    simp only [insertByKey]
    by_cases hx : acc.any (fun y => key y = key x)
    · rw [if_pos hx]; exact ih acc h
    · rw [if_neg hx]
      apply ih
      rw [List.map_append]
      simp only [List.map_cons, List.map_nil]
      rw [List.nodup_append]
      refine ⟨h, List.nodup_singleton _, ?_⟩
      intro b hb
      simp only [List.mem_singleton]
      intro hcontra
      rw [List.any_eq_true] at hx
      obtain ⟨y, hy, hky⟩ := List.mem_map.mp hb
      exact hx ⟨y, hy, by simp [hky, hcontra]⟩

theorem nodup_dedupeBy {β : Type _} [DecidableEq β] (key : α → β)
    (l : List α) : ((dedupeBy key l).map key).Nodup :=
  nodup_dedupeByAux key l [] (by simp)

theorem dedupeByAux_find? {β : Type _} [DecidableEq β] (key : α → β)
    (l : List α) : ∀ acc : List α, ∀ x ∈ dedupeByAux key acc l,
    x ∈ acc ∨ ((∀ y ∈ acc, key y ≠ key x) ∧
      l.find? (fun y => key y = key x) = some x) := by
  induction l with
  | nil => intro acc x hx; exact Or.inl (by simpa [dedupeByAux] using hx)
  | cons c rest ih =>
    intro acc x hx
    rw [dedupeByAux] at hx
    rcases ih _ x hx with hmem | ⟨hfresh, hfind⟩
    · simp only [insertByKey] at hmem
      by_cases hc : acc.any (fun y => key y = key c)
      · rw [if_pos hc] at hmem
        exact Or.inl hmem
      · rw [if_neg hc] at hmem
        rcases List.mem_append.mp hmem with h | h
        · exact Or.inl h
        · -- x = c was freshly inserted
          rw [List.mem_singleton] at h
          subst h
          refine Or.inr ⟨?_, ?_⟩
          · intro y hy hky
            rw [List.any_eq_true] at hc
            exact hc ⟨y, hy, by simp [hky]⟩
          · rw [List.find?_cons_of_pos]
            simp
    · -- x was found in rest, and no key-equal element is in insertByKey acc c
      simp only [insertByKey] at hfresh
      by_cases hc : acc.any (fun y => key y = key c)
      · rw [if_pos hc] at hfresh
        refine Or.inr ⟨hfresh, ?_⟩
        rw [List.find?_cons_of_neg, hfind]
        simp only [decide_eq_true_eq]
        intro hkc
        rw [List.any_eq_true] at hc
        obtain ⟨y, hy, hky⟩ := hc
        simp only [decide_eq_true_eq] at hky
        exact hfresh y hy (by rw [hky, hkc])
      · rw [if_neg hc] at hfresh
        refine Or.inr ⟨fun y hy => hfresh y (List.mem_append_left _ hy), ?_⟩
        rw [List.find?_cons_of_neg, hfind]
        simp only [decide_eq_true_eq]
        intro hkc
        exact hfresh c (by simp) hkc

theorem dedupeBy_find? {β : Type _} [DecidableEq β] (key : α → β)
    (l : List α) (x : α) (hx : x ∈ dedupeBy key l) :
    l.find? (fun y => key y = key x) = some x := by
  rcases dedupeByAux_find? key l [] x hx with h | ⟨_, h⟩
  · simp at h
  · exact h

theorem dedupeByAux_complete {β : Type _} [DecidableEq β] (key : α → β)
    (l : List α) : ∀ acc : List α, ∀ c ∈ l,
    ∃ x ∈ dedupeByAux key acc l, key x = key c := by
  induction l with
  | nil => intro acc c hc; simp at hc
  | cons d rest ih =>
    intro acc c hc
    rw [dedupeByAux]
    rcases List.mem_cons.mp hc with h | h
    · subst h
      simp only [insertByKey]
      by_cases hd : acc.any (fun y => key y = key c)
      · rw [if_pos hd]
        rw [List.any_eq_true] at hd
        obtain ⟨y, hy, hky⟩ := hd
        simp only [decide_eq_true_eq] at hky
        exact ⟨y, mem_dedupeByAux_of_mem_acc key rest acc y hy, hky⟩
      · rw [if_neg hd]
        exact ⟨c, mem_dedupeByAux_of_mem_acc key rest _ c (by simp), rfl⟩
    · exact ih _ c h

theorem dedupeBy_complete {β : Type _} [DecidableEq β] (key : α → β)
    (l : List α) (c : α) (hc : c ∈ l) :
    ∃ x ∈ dedupeBy key l, key x = key c :=
  dedupeByAux_complete key l [] c hc

theorem dedupeBy_sublist {β : Type _} [DecidableEq β] (key : α → β)
    (l : List α) : (dedupeBy key l).Sublist l := by
  obtain ⟨d, hd, hsub⟩ := dedupeByAux_append key l []
  rw [dedupeBy, hd]
  simpa using hsub

theorem cleanedSizes_cons_empty (e : SizeElement) (rest : List SizeElement)
    (h : sizeNameOf e = "") : cleanedSizes (e :: rest) = cleanedSizes rest := by
  simp [cleanedSizes, h]

theorem cleanedSizes_cons (e : SizeElement) (rest : List SizeElement)
    (h : ¬ sizeNameOf e = "") :
    cleanedSizes (e :: rest) =
      ⟨sizeNameOf e, computeAvailable e.dataDisabled⟩ :: cleanedSizes rest := by
  simp [cleanedSizes, h]

theorem sizeStep_empty (acc : List SizeInfo) (e : SizeElement)
    (h : sizeNameOf e = "") : sizeStep acc e = acc := by
  simp [sizeStep, h]

theorem sizeStep_insert (acc : List SizeInfo) (e : SizeElement)
    (h : ¬ sizeNameOf e = "") :
    sizeStep acc e =
      insertByKey SizeInfo.name acc ⟨sizeNameOf e, computeAvailable e.dataDisabled⟩ := by
  simp only [sizeStep, insertByKey, h, if_false]

theorem extractSizesAux_eq_dedupe (elems : List SizeElement) :
    ∀ acc : List SizeInfo,
    extractSizesAux acc elems = dedupeByAux SizeInfo.name acc (cleanedSizes elems) := by
  induction elems with
  | nil => intro acc; rfl
  | cons e rest ih =>
    intro acc
    by_cases h : sizeNameOf e = ""
    · rw [cleanedSizes_cons_empty e rest h]
      calc extractSizesAux acc (e :: rest)
            = extractSizesAux (sizeStep acc e) rest := rfl
        _ = extractSizesAux acc rest := by rw [sizeStep_empty acc e h]
        _ = dedupeByAux SizeInfo.name acc (cleanedSizes rest) := ih acc
    · rw [cleanedSizes_cons e rest h]
      calc extractSizesAux acc (e :: rest)
            = extractSizesAux (sizeStep acc e) rest := rfl
        _ = dedupeByAux SizeInfo.name (sizeStep acc e) (cleanedSizes rest) := ih _
        _ = dedupeByAux SizeInfo.name
              (insertByKey SizeInfo.name acc ⟨sizeNameOf e, computeAvailable e.dataDisabled⟩)
              (cleanedSizes rest) := by rw [sizeStep_insert acc e h]
        _ = dedupeByAux SizeInfo.name acc
              (⟨sizeNameOf e, computeAvailable e.dataDisabled⟩ :: cleanedSizes rest) := rfl

theorem extractSizes_eq_dedupe (elems : List SizeElement) :
    extractSizes elems = dedupeBy SizeInfo.name (cleanedSizes elems) :=
  extractSizesAux_eq_dedupe elems []

/-! ### Helper lemmas: filesystem map -/

theorem fsGet_remove_self (fs : FS) (p : LocalPath) :
    fsGet (fsRemove fs p) p = none := by
  induction fs with
  | nil => rfl
  | cons e rest ih =>
    simp only [fsRemove, List.filter_cons] at ih ⊢
    by_cases he : e.1 = p
    · rw [if_neg (by simpa using he)]
      exact ih
    · rw [if_pos (by simpa using he)]
      rw [fsGet, if_neg he]
      exact ih

theorem fsGet_remove_other (fs : FS) (p q : LocalPath) (h : q ≠ p) :
    fsGet (fsRemove fs p) q = fsGet fs q := by
  induction fs with
  | nil => rfl
  | cons e rest ih =>
    simp only [fsRemove, List.filter_cons] at ih ⊢
    by_cases he : e.1 = p
    · rw [if_neg (by simpa using he)]
      rw [ih]
      rw [fsGet, if_neg (by rw [he]; exact Ne.symm h)]
    · rw [if_pos (by simpa using he)]
      by_cases hq : e.1 = q
      · rw [fsGet, if_pos hq, fsGet, if_pos hq]
      · rw [fsGet, if_neg hq, fsGet, if_neg hq]
        exact ih

theorem fsGet_write_self (fs : FS) (p : LocalPath) (b : ImageBytes) :
    fsGet (fsWrite fs p b) p = some b := by
  rw [fsWrite, fsGet, if_pos rfl]

theorem fsGet_write_other (fs : FS) (p q : LocalPath) (b : ImageBytes)
    (h : q ≠ p) : fsGet (fsWrite fs p b) q = fsGet fs q := by
  rw [fsWrite, fsGet, if_neg (Ne.symm h)]
  exact fsGet_remove_other fs p q h

theorem fsGet_tryRemove_other (env : DownloadEnv) (fs : FS) (p q : LocalPath)
    (h : q ≠ p) : fsGet (fsTryRemove env fs p) q = fsGet fs q := by
  rw [fsTryRemove]
  cases fsGet fs p with
  | none => rfl
  | some b =>
    by_cases hr : env.removeOk p
    · rw [if_pos hr]
      exact fsGet_remove_other fs p q h
    · rw [if_neg hr]

theorem fsGet_applyFailedWrite_other (env : DownloadEnv) (fs : FS)
    (p q : LocalPath) (h : q ≠ p) :
    fsGet (applyFailedWrite env fs p) q = fsGet fs q := by
  rw [applyFailedWrite]
  cases env.failedWriteEffect p with
  | none => rfl
  | some b => exact fsGet_write_other fs p q b h

/-- When the cleanup removal succeeds, no file is left at the path. -/
theorem fsGet_tryRemove_self_removeOk (env : DownloadEnv) (fs : FS)
    (p : LocalPath) (hr : env.removeOk p = true) :
    fsGet (fsTryRemove env fs p) p = none := by
  rw [fsTryRemove]
  cases h : fsGet fs p with
  | none => exact h
  | some b =>
    rw [if_pos hr]
    exact fsGet_remove_self fs p

/-- When no file is at the path, the cleanup leaves none there. -/
theorem fsGet_tryRemove_self_none (env : DownloadEnv) (fs : FS)
    (p : LocalPath) (h : fsGet fs p = none) :
    fsGet (fsTryRemove env fs p) p = none := by
  rw [fsTryRemove, h]
  exact h

/-- The cleanup never creates a file: afterwards the path holds nothing or
exactly what it held before. -/
theorem fsGet_tryRemove_self_cases (env : DownloadEnv) (fs : FS)
    (p : LocalPath) :
    fsGet (fsTryRemove env fs p) p = fsGet fs p ∨
    fsGet (fsTryRemove env fs p) p = none := by
  rw [fsTryRemove]
  cases h : fsGet fs p with
  | none => exact Or.inr h
  | some b =>
    by_cases hr : env.removeOk p
    · rw [if_pos hr]
      exact Or.inr (fsGet_remove_self fs p)
    · rw [if_neg hr]
      exact Or.inl h

/-- `_download_image` touches no path other than the one it computes. -/
theorem download_image_frame (env : DownloadEnv) (fs : FS) (url dir pfx : String)
    (idx : Nat) (q : LocalPath)
    (h : q ≠ { dir := dir, pfx := pfx, index := idx, url := url }) :
    fsGet (_download_image env fs url dir pfx idx).2 q = fsGet fs q := by
  rw [_download_image]
  by_cases hu : url = ""
  · rw [if_pos hu]
  · rw [if_neg hu]
    cases hf : (_fetch_image_bytes env url).1 with
    | none => exact fsGet_tryRemove_other env fs _ q h
    | some content =>
      by_cases hw : env.writeOk { dir := dir, pfx := pfx, index := idx, url := url }
      · simp only [hw, if_true]
        exact fsGet_write_other fs _ q content h
      · simp only [hw, if_false]
        have h1 := fsGet_tryRemove_other env
          (applyFailedWrite env fs { dir := dir, pfx := pfx, index := idx, url := url })
          { dir := dir, pfx := pfx, index := idx, url := url } q h
        have h2 := fsGet_applyFailedWrite_other env fs
          { dir := dir, pfx := pfx, index := idx, url := url } q h
        exact h1.trans h2

/-- The download loop starting at index `idx` leaves every path with a
smaller index untouched. -/
theorem downloadLoop_frame (env : DownloadEnv) (dir pfx : String)
    (urls : List String) : ∀ (idx : Nat) (seen : List String) (fs : FS)
    (q : LocalPath), q.index < idx →
    fsGet (downloadLoop env dir pfx urls idx seen fs).2 q = fsGet fs q := by
  induction urls with
  | nil => intro idx seen fs q _; rfl
  | cons url rest ih =>
    intro idx seen fs q hq
    rw [downloadLoop]
    by_cases hskip : url = "" ∨ url ∈ seen
    · rw [if_pos hskip]
      exact ih (idx + 1) seen fs q (Nat.lt_succ_of_lt hq)
    · rw [if_neg hskip]
      have hne : q ≠ { dir := dir, pfx := pfx, index := idx, url := url } := by
        intro hcontra
        rw [hcontra] at hq
        exact Nat.lt_irrefl idx hq
      cases hdl : _download_image env fs url dir pfx idx with
      | mk res fs1 =>
        have hfs1 : fsGet fs1 q = fsGet fs q := by
          have := download_image_frame env fs url dir pfx idx q hne
          rw [hdl] at this
          exact this
        cases res with
        | some p =>
          simp only []
          rw [ih (idx + 1) (url :: seen) fs1 q (Nat.lt_succ_of_lt hq), hfs1]
        | none =>
          rw [ih (idx + 1) (url :: seen) fs1 q (Nat.lt_succ_of_lt hq), hfs1]

/-! ### Helper lemmas: OCR cache -/

theorem cacheLookup_cons_self (c : List (String × Option OcrDoc)) (k : String)
    (v : Option OcrDoc) : cacheLookup ((k, v) :: c) k = some v := by
  rw [cacheLookup, if_pos rfl]

theorem cacheLookup_cons_other (c : List (String × Option OcrDoc))
    (k q : String) (v : Option OcrDoc) (h : k ≠ q) :
    cacheLookup ((q, v) :: c) k = cacheLookup c k := by
  rw [cacheLookup, if_neg (Ne.symm h)]

/-! ### Helper lemmas: the variant loop's interaction trace -/

/-- Every event a single style step emits carries that step's index, and is
emitted only when the element is available. -/
theorem processStyle_events_available (ce : Nat → DomState → DomState)
    (i : Nat) (e : StyleElement) (dom : DomState) (ev : InteractionEvent)
    (hev : ev ∈ (processStyle ce i e dom).events) :
    (ev = InteractionEvent.clicked i ∨ ev = InteractionEvent.imageSettled i) ∧
      computeAvailable e.dataDisabled = true := by
  by_cases h : computeAvailable e.dataDisabled
  · refine ⟨?_, h⟩
    simp only [processStyle, h, if_true] at hev
    by_cases h2 : pyTruthy dom.mainImgSrc
    · rw [if_pos h2] at hev
      simpa using hev
    · rw [if_neg h2] at hev
      exact Or.inl (by simpa using hev)
  · exfalso
    simp only [processStyle] at hev
    rw [if_neg h] at hev
    simp at hev

/-- Skipping a style step: an unavailable element emits no events, leaves
the DOM unchanged, and its sizes are read from the incoming DOM. -/
theorem processStyle_unavailable (ce : Nat → DomState → DomState)
    (i : Nat) (e : StyleElement) (dom : DomState)
    (h : computeAvailable e.dataDisabled = false) :
    (processStyle ce i e dom).events = [] ∧
    (processStyle ce i e dom).dom = dom ∧
    (processStyle ce i e dom).data.sizes = sizesPhase dom ∧
    (processStyle ce i e dom).data.available = false := by
  simp only [processStyle, h]
  simp

/-- Every event of the loop tail starting at index `i` belongs to a position
`k` whose element is available, with global index `i + k`. -/
theorem runVariantsAux_events_available (ce : Nat → DomState → DomState)
    (elems : List StyleElement) : ∀ (i : Nat) (dom : DomState)
    (ev : InteractionEvent), ev ∈ (runVariantsAux ce i elems dom).events →
    ∃ (k : Nat) (e : StyleElement), elems[k]? = some e ∧
      computeAvailable e.dataDisabled = true ∧
      (ev = InteractionEvent.clicked (i + k) ∨
       ev = InteractionEvent.imageSettled (i + k)) := by
  induction elems with
  | nil =>
    intro i dom ev hev
    simp [runVariantsAux] at hev
  | cons e rest ih =>
    intro i dom ev hev
    simp only [runVariantsAux] at hev
    rw [List.mem_append] at hev
    rcases hev with h | h
    · obtain ⟨hd, havail⟩ := processStyle_events_available ce i e dom ev h
      exact ⟨0, e, by simp, havail, by simpa using hd⟩
    · obtain ⟨k, e2, hk, ha, hd⟩ := ih (i + 1) _ ev h
      refine ⟨k + 1, e2, by simpa using hk, ha, ?_⟩
      have harith : i + 1 + k = i + (k + 1) := by omega
      rw [harith] at hd
      exact hd

/-- The availability stored in a style step's record is exactly the
computation from the element's disabled-state attribute. -/
theorem processStyle_available_field (ce : Nat → DomState → DomState)
    (i : Nat) (e : StyleElement) (dom : DomState) :
    (processStyle ce i e dom).data.available = computeAvailable e.dataDisabled := by
  by_cases h : computeAvailable e.dataDisabled
  · simp only [processStyle, h, if_true]
    by_cases h2 : pyTruthy dom.mainImgSrc
    · rw [if_pos h2]
    · rw [if_neg h2]
  · simp only [processStyle, h]
    simp

/-- Every sizes list a style step records is a `sizesPhase` of some DOM
state. -/
theorem processStyle_sizes_shape (ce : Nat → DomState → DomState)
    (i : Nat) (e : StyleElement) (dom : DomState) :
    ∃ d : DomState, (processStyle ce i e dom).data.sizes = sizesPhase d := by
  by_cases h : computeAvailable e.dataDisabled
  · simp only [processStyle, h, if_true]
    by_cases h2 : pyTruthy dom.mainImgSrc
    · rw [if_pos h2]; exact ⟨ce i dom, rfl⟩
    · rw [if_neg h2]; exact ⟨ce i dom, rfl⟩
  · simp only [processStyle, h]
    exact ⟨dom, by simp⟩

/-- Every record the loop tail emits has a sizes list of the `sizesPhase`
shape. -/
theorem runVariantsAux_sizes_shape (ce : Nat → DomState → DomState)
    (elems : List StyleElement) : ∀ (i : Nat) (dom : DomState)
    (sd : StyleData), sd ∈ (runVariantsAux ce i elems dom).datas →
    ∃ d : DomState, sd.sizes = sizesPhase d := by
  induction elems with
  | nil =>
    intro i dom sd hsd
    simp [runVariantsAux] at hsd
  | cons e rest ih =>
    intro i dom sd hsd
    simp only [runVariantsAux] at hsd
    rw [List.mem_cons] at hsd
    rcases hsd with h | h
    · rw [h]
      exact processStyle_sizes_shape ce i e dom
    · exact ih (i + 1) _ sd h

/-- Size names in a `sizesPhase` result are pairwise distinct. -/
theorem sizesPhase_nodup (dom : DomState) :
    ((sizesPhase dom).map SizeInfo.name).Nodup := by
  rw [sizesPhase]
  by_cases h : dom.skuContainerPresent
  · rw [if_pos h]
    cases dom.sizeAxis with
    | none => simp
    | some elems =>
      simp only []
      rw [extractSizes_eq_dedupe]
      exact nodup_dedupeBy SizeInfo.name (cleanedSizes elems)
  · rw [if_neg h]
    simp

/-! ### Helper lemmas: the OCR memo -/

/-- In a cache all of whose memos are `none`, every hit is a `none` memo. -/
theorem cacheLookup_all_none (c : List (String × Option OcrDoc))
    (hall : ∀ kv ∈ c, kv.2 = none) (k : String) (v : Option OcrDoc)
    (h : cacheLookup c k = some v) : v = none := by
  induction c with
  | nil => simp [cacheLookup] at h
  | cons kv rest ih =>
    rw [cacheLookup] at h
    by_cases hk : kv.1 = k
    · rw [if_pos hk] at h
      have hv := hall kv (by simp)
      rw [hv] at h
      exact (Option.some_inj.mp h).symm
    · rw [if_neg hk] at h
      exact ih (fun x hx => hall x (List.mem_cons_of_mem kv hx)) h

/-- One recognition step preserves the invariant that the engine has run at
most once for `path` and that a path the engine has seen is cached. -/
theorem ocr_step_inv (env : OcrEnv) (path q : String) (st : OcrState)
    (h1 : st.engineCalls.count path ≤ 1)
    (h2 : path ∈ st.engineCalls → cacheLookup st.cache path ≠ none) :
    (_run_ocr_from_file env st q).2.engineCalls.count path ≤ 1 ∧
    (path ∈ (_run_ocr_from_file env st q).2.engineCalls →
      cacheLookup (_run_ocr_from_file env st q).2.cache path ≠ none) := by
  by_cases hq0 : q = ""
  · simp only [_run_ocr_from_file, hq0, if_pos rfl]
    exact ⟨h1, h2⟩
  · simp only [_run_ocr_from_file, hq0, if_false]
    cases hs : env.fileSize q with
    | none => exact ⟨h1, h2⟩
    | some n =>
      cases n with
      | zero => exact ⟨h1, h2⟩
      | succ m =>
        simp only []
        cases hc : cacheLookup st.cache q with
        | some cached => exact ⟨h1, h2⟩
        | none =>
          by_cases hcl : _get_ocr_client env
          · rw [if_pos hcl]
            simp only []
            by_cases hqp : q = path
            · subst hqp
              have hnotin : q ∉ st.engineCalls := by
                intro hmem
                exact h2 hmem hc
              constructor
              · rw [List.count_append]
                have hz : st.engineCalls.count q = 0 :=
                  List.count_eq_zero.mpr hnotin
                simp [hz]
              · intro _
                rw [cacheLookup_cons_self]
                simp
            · constructor
              · rw [List.count_append]
                have hz : List.count path [q] = 0 := by
                  rw [List.count_eq_zero]
                  intro hmem
                  rw [List.mem_singleton] at hmem
                  exact hqp hmem.symm
                omega
              · intro hmem
                rw [List.mem_append] at hmem
                rcases hmem with hm | hm
                · rw [cacheLookup_cons_other _ _ _ _ (Ne.symm hqp)]
                  exact h2 hm
                · have hpq : path = q := by simpa using hm
                  exact absurd hpq.symm hqp
          · rw [if_neg hcl]
            refine ⟨h1, ?_⟩
            intro hmem
            by_cases hqp : q = path
            · subst hqp
              rw [cacheLookup_cons_self]
              simp
            · rw [cacheLookup_cons_other _ _ _ _ (Ne.symm hqp)]
              exact h2 hmem

/-- Folding recognition steps from a state satisfying the invariant keeps
the invariant. -/
theorem ocr_fold_inv (env : OcrEnv) (path : String) (paths : List String) :
    ∀ st : OcrState, st.engineCalls.count path ≤ 1 →
    (path ∈ st.engineCalls → cacheLookup st.cache path ≠ none) →
    ((paths.foldl (fun s q => (_run_ocr_from_file env s q).2) st).engineCalls.count path ≤ 1 ∧
     (path ∈ (paths.foldl (fun s q => (_run_ocr_from_file env s q).2) st).engineCalls →
       cacheLookup (paths.foldl (fun s q => (_run_ocr_from_file env s q).2) st).cache path ≠ none)) := by
  induction paths with
  | nil => intro st h1 h2; exact ⟨h1, h2⟩
  | cons q rest ih =>
    intro st h1 h2
    have hstep := ocr_step_inv env path q st h1 h2
    exact ih _ hstep.1 hstep.2

/-- When the client is unavailable, a recognition call on a cache holding
only `none` memos returns `none` and keeps the cache all-`none`. -/
theorem ocr_unavailable_step (env : OcrEnv) (hcl : _get_ocr_client env = false)
    (st : OcrState) (hst : ∀ kv ∈ st.cache, kv.2 = none) (path : String) :
    (_run_ocr_from_file env st path).1 = none ∧
    (∀ kv ∈ (_run_ocr_from_file env st path).2.cache, kv.2 = none) := by
  by_cases hq0 : path = ""
  · simp only [_run_ocr_from_file, hq0, if_pos rfl]
    exact ⟨rfl, hst⟩
  · simp only [_run_ocr_from_file, hq0, if_false]
    cases hs : env.fileSize path with
    | none => exact ⟨rfl, hst⟩
    | some n =>
      cases n with
      | zero => exact ⟨rfl, hst⟩
      | succ m =>
        cases hc : cacheLookup st.cache path with
        | some cached =>
          have hnone : cached = none :=
            cacheLookup_all_none st.cache hst path cached hc
          rw [hnone]
          exact ⟨rfl, hst⟩
        | none =>
          rw [if_neg (by simp [hcl])]
          refine ⟨rfl, ?_⟩
          intro kv hkv
          rw [List.mem_cons] at hkv
          rcases hkv with h | h
          · rw [h]
          · exact hst kv h

/-- Reading `ocr_unavailable_step` through an equation on the returned
pair. -/
theorem ocr_unavailable_run (env : OcrEnv) (hcl : _get_ocr_client env = false)
    (st : OcrState) (hst : ∀ kv ∈ st.cache, kv.2 = none) (p : String)
    (r : Option OcrDoc) (st1 : OcrState)
    (heq : _run_ocr_from_file env st p = (r, st1)) :
    r = none ∧ (∀ kv ∈ st1.cache, kv.2 = none) := by
  obtain ⟨h1, h2⟩ := ocr_unavailable_step env hcl st hst p
  rw [heq] at h1 h2
  exact ⟨h1, h2⟩

/-- With the client unavailable, the main-image OCR loop changes nothing. -/
theorem ocrMainLoop_unavailable (env : OcrEnv) (hcl : _get_ocr_client env = false)
    (mMap : String → Option String) (styles : List StyleFull) :
    ∀ st : OcrState, (∀ kv ∈ st.cache, kv.2 = none) →
    (ocrMainLoop env mMap styles st).styles = styles ∧
    (ocrMainLoop env mMap styles st).texts = [] ∧
    (∀ kv ∈ (ocrMainLoop env mMap styles st).st.cache, kv.2 = none) := by
  induction styles with
  | nil => intro st hst; exact ⟨rfl, rfl, hst⟩
  | cons style rest ih =>
    intro st hst
    rw [ocrMainLoop]
    split
    · -- image_url is None
      obtain ⟨ha, hb, hc⟩ := ih st hst
      exact ⟨by simp [ha], by simp [hb], by simpa using hc⟩
    · split
      · -- URL not in the manifest map
        obtain ⟨ha, hb, hc⟩ := ih st hst
        exact ⟨by simp [ha], by simp [hb], by simpa using hc⟩
      · split
        · -- recognition returned None
          rename_i st1 heq
          obtain ⟨_, hcache⟩ := ocr_unavailable_run env hcl st hst _ _ _ heq
          obtain ⟨ha, hb, hc⟩ := ih st1 hcache
          exact ⟨by simp [ha], by simp [hb], by simpa using hc⟩
        · -- recognition returned a document: impossible with no client
          rename_i doc st1 heq
          obtain ⟨hres, _⟩ := ocr_unavailable_run env hcl st hst _ _ _ heq
          simp at hres

/-- With the client unavailable, the detail-image OCR loop collects
nothing. -/
theorem ocrDetailLoop_unavailable (env : OcrEnv) (hcl : _get_ocr_client env = false)
    (dMap : String → Option String) (urls : List String) :
    ∀ st : OcrState, (∀ kv ∈ st.cache, kv.2 = none) →
    (ocrDetailLoop env dMap urls st).docs = [] ∧
    (∀ kv ∈ (ocrDetailLoop env dMap urls st).st.cache, kv.2 = none) := by
  induction urls with
  | nil => intro st hst; exact ⟨rfl, hst⟩
  | cons url rest ih =>
    intro st hst
    rw [ocrDetailLoop]
    split
    · exact ih st hst
    · split
      · rename_i st1 heq
        obtain ⟨_, hcache⟩ := ocr_unavailable_run env hcl st hst _ _ _ heq
        exact ih st1 hcache
      · rename_i doc st1 heq
        obtain ⟨hres, _⟩ := ocr_unavailable_run env hcl st hst _ _ _ heq
        simp at hres

/-- Every manifest entry the download loop emits corresponds to a successful
fetch, and its local path holds those bytes in the final filesystem. -/
theorem downloadLoop_sound (env : DownloadEnv) (dir pfx : String)
    (urls : List String) : ∀ (idx : Nat) (seen : List String) (fs : FS),
    ∀ ent ∈ (downloadLoop env dir pfx urls idx seen fs).1,
    ∃ c, (_fetch_image_bytes env ent.url).1 = some c ∧
      fsGet (downloadLoop env dir pfx urls idx seen fs).2 ent.file = some c := by
  induction urls with
  | nil =>
    intro idx seen fs ent hent
    simp [downloadLoop] at hent
  | cons url rest ih =>
    intro idx seen fs ent hent
    rw [downloadLoop] at hent ⊢
    by_cases hskip : url = "" ∨ url ∈ seen
    · rw [if_pos hskip] at hent ⊢
      exact ih _ _ _ ent hent
    · rw [if_neg hskip] at hent ⊢
      have hne : url ≠ "" := fun hcontra => hskip (Or.inl hcontra)
      split at hent
      · -- the download returned a local path
        rename_i p fs1 heq
        simp only [] at hent ⊢
        rcases List.mem_cons.mp hent with hent1 | hent2
        · subst hent1
          rw [_download_image, if_neg hne] at heq
          cases hfetch : (_fetch_image_bytes env url).1 with
          | none =>
            rw [hfetch] at heq
            simp at heq
          | some content =>
            rw [hfetch] at heq
            simp only [] at heq
            by_cases hw : env.writeOk { dir := dir, pfx := pfx, index := idx, url := url }
            · rw [if_pos hw] at heq
              rw [Prod.mk.injEq] at heq
              obtain ⟨hp, hfs1⟩ := heq
              have hp2 : ({ dir := dir, pfx := pfx, index := idx, url := url } : LocalPath) = p :=
                Option.some_inj.mp hp
              refine ⟨content, rfl, ?_⟩
              rw [← hfs1, ← hp2]
              rw [downloadLoop_frame env dir pfx rest (idx + 1) (url :: seen) _ _
                (Nat.lt_succ_self idx)]
              exact fsGet_write_self fs _ content
            · rw [if_neg hw] at heq
              simp at heq
        · exact ih (idx + 1) (url :: seen) fs1 ent hent2
      · -- the download failed: no entry was appended
        rename_i fs1 heq
        exact ih (idx + 1) (url :: seen) fs1 ent hent

/-! ## The claims -/

/-- C1 (counterexample): a page whose SKU container IS located by the first
selector still aborts with `None` (after persisting the SKU-container
snapshot) because no style elements are found, so container-miss is not the
only abort condition. -/
theorem c1_not_only_abort_counterexample :
    locateSkuContainer pageStylesMissing.containerHit =
      some "div[class*=\"skuWrapper\"]" ∧
    (scrape_single_product pageStylesMissing).record = none ∧
    (scrape_single_product pageStylesMissing).snapshots =
      ["debug_sku_container.html"] := by
  exact ⟨by decide, by decide, by decide⟩

/-- C1 (amended): if no SKU-container selector matches, the scrape returns
`None` after persisting the page-source snapshot and emits no record; this
is however not the only abort: the scrape also returns `None` (after
persisting the SKU-container snapshot) when the style-discovery cascade
finds no elements, and these two are exactly the abort conditions of the
model. -/
theorem c1_container_abort_amended (p : PageModel) :
    ((scrape_single_product p).record = none ↔
      (locateSkuContainer p.containerHit = none ∨ findStyleElements p = [])) ∧
    (locateSkuContainer p.containerHit = none →
      (scrape_single_product p).record = none ∧
      (scrape_single_product p).snapshots = ["debug_page_source.html"]) ∧
    (locateSkuContainer p.containerHit ≠ none → findStyleElements p = [] →
      (scrape_single_product p).record = none ∧
      (scrape_single_product p).snapshots = ["debug_sku_container.html"]) := by
  cases hloc : locateSkuContainer p.containerHit with
  | none =>
    refine ⟨?_, fun _ => ?_, fun hne _ => absurd rfl hne⟩
    · simp [scrape_single_product, hloc]
    · simp [scrape_single_product, hloc]
  | some sel =>
    by_cases hs : findStyleElements p = []
    · refine ⟨?_, fun hcontra => absurd hcontra (by simp), fun _ _ => ?_⟩
      · simp [scrape_single_product, hloc, hs]
      · simp [scrape_single_product, hloc, hs]
    · refine ⟨?_, fun hcontra => absurd hcontra (by simp),
        fun _ hcontra => absurd hcontra hs⟩
      simp [scrape_single_product, hloc, hs]

/-- C2: a style variant whose availability flag is false triggers no click
and no image-settle interaction anywhere in the run, and processing it has
no side effect: the DOM is left unchanged and its sizes are read from the
incoming DOM state, so its sizes list cannot stem from a click on it. -/
theorem c2_unavailable_no_interaction (ce : Nat → DomState → DomState)
    (elems : List StyleElement) (dom : DomState) (k : Nat) (e : StyleElement)
    (hk : elems[k]? = some e)
    (hun : computeAvailable e.dataDisabled = false) :
    (InteractionEvent.clicked k ∉ (runVariants ce elems dom).events ∧
     InteractionEvent.imageSettled k ∉ (runVariants ce elems dom).events) ∧
    (∀ d : DomState,
      (processStyle ce k e d).events = [] ∧
      (processStyle ce k e d).dom = d ∧
      (processStyle ce k e d).data.sizes = sizesPhase d ∧
      (processStyle ce k e d).data.available = false) := by
  constructor
  · constructor
    · intro hmem
      obtain ⟨k2, e2, hk2, ha2, hd2⟩ :=
        runVariantsAux_events_available ce elems 0 dom _ hmem
      rcases hd2 with h | h
      · have hkk : k = k2 := by
          injection h with h2
          omega
        rw [hkk] at hk
        rw [hk] at hk2
        have he : e = e2 := Option.some_inj.mp hk2
        rw [← he, hun] at ha2
        exact Bool.false_ne_true ha2
      · simp at h
    · intro hmem
      obtain ⟨k2, e2, hk2, ha2, hd2⟩ :=
        runVariantsAux_events_available ce elems 0 dom _ hmem
      rcases hd2 with h | h
      · simp at h
      · have hkk : k = k2 := by
          injection h with h2
          omega
        rw [hkk] at hk
        rw [hk] at hk2
        have he : e = e2 := Option.some_inj.mp hk2
        rw [← he, hun] at ha2
        exact Bool.false_ne_true ha2
  · intro d
    exact processStyle_unavailable ce k e d hun

/-- C2 (witness): for a concrete one-element list holding a sold-out
variant, no click and no image-settle event appears in the trace, and the
step has no side effect on any DOM state. -/
theorem c2_witness :
    (InteractionEvent.clicked 0 ∉ (runVariants idClick [soldOutStyle] wDom).events ∧
     InteractionEvent.imageSettled 0 ∉ (runVariants idClick [soldOutStyle] wDom).events) ∧
    (∀ d : DomState,
      (processStyle idClick 0 soldOutStyle d).events = [] ∧
      (processStyle idClick 0 soldOutStyle d).dom = d ∧
      (processStyle idClick 0 soldOutStyle d).data.sizes = sizesPhase d ∧
      (processStyle idClick 0 soldOutStyle d).data.available = false) :=
  c2_unavailable_no_interaction idClick [soldOutStyle] wDom 0 soldOutStyle
    (by decide) (by decide)

/-- C3 (counterexample): a size value item whose `data-disabled` attribute
is absent is recorded as available (`true`), not unavailable as the claim
states. -/
theorem c3_absent_attribute_counterexample :
    computeAvailable none = true ∧
    sizeElemNoDisabled.dataDisabled = none ∧
    extractSizes [sizeElemNoDisabled] = [{ name := "M", available := true }] := by
  exact ⟨by decide, by decide, by decide⟩

/-- C3 (amended): a style or size value item is available exactly when its
disabled-state attribute is absent, empty, or the literal `"false"` (the
absent attribute defaults to the `"false"` marker, so it counts as
available); any other value marks the item unavailable, and the style loop
stores exactly this computation in the record. -/
theorem c3_availability_amended (d : Option String) :
    (computeAvailable d = true ↔
      (d = none ∨ d = some "" ∨ d = some "false")) ∧
    (∀ (ce : Nat → DomState → DomState) (i : Nat) (e : StyleElement)
        (dom : DomState),
      (processStyle ce i e dom).data.available = computeAvailable e.dataDisabled) := by
  constructor
  · cases d with
    | none => simp [computeAvailable, attrOr, pyOr]
    | some s =>
      by_cases h : s = ""
      · subst h
        simp [computeAvailable, attrOr, pyOr]
      · simp [computeAvailable, attrOr, pyOr, h]
  · intro ce i e dom
    exact processStyle_available_field ce i e dom

/-- C4: size names within one variant are pairwise distinct; the kept entry
with a given name is the first raw occurrence (with its availability), every
raw name survives into the output, and every sizes list of every record a
scrape emits has pairwise distinct names. -/
theorem c4_sizes_unique :
    (∀ elems : List SizeElement,
      ((extractSizes elems).map SizeInfo.name).Nodup ∧
      (∀ s ∈ extractSizes elems,
        (cleanedSizes elems).find? (fun t => t.name = s.name) = some s) ∧
      (∀ c ∈ cleanedSizes elems, ∃ s ∈ extractSizes elems, s.name = c.name)) ∧
    (∀ (p : PageModel) (styles : List StyleData) (sd : StyleData),
      (scrape_single_product p).record = some styles → sd ∈ styles →
      (sd.sizes.map SizeInfo.name).Nodup) := by
  constructor
  · intro elems
    simp only [extractSizes_eq_dedupe]
    exact ⟨nodup_dedupeBy _ _, fun s hs => dedupeBy_find? _ _ s hs,
      fun c hc => dedupeBy_complete _ _ c hc⟩
  · intro p styles sd hrec hsd
    cases hloc : locateSkuContainer p.containerHit with
    | none =>
      rw [scrape_single_product, hloc] at hrec
      simp at hrec
    | some sel =>
      rw [scrape_single_product, hloc] at hrec
      simp only [] at hrec
      by_cases hs : findStyleElements p = []
      · rw [if_pos hs] at hrec
        simp at hrec
      · rw [if_neg hs] at hrec
        simp only [] at hrec
        have hstyles : styles =
            (runVariants p.clickEffect (findStyleElements p) p.initialDom).datas :=
          (Option.some_inj.mp hrec).symm
        subst hstyles
        rw [runVariants] at hsd
        obtain ⟨d, hdd⟩ := runVariantsAux_sizes_shape p.clickEffect
          (findStyleElements p) 0 p.initialDom sd hsd
        rw [hdd]
        exact sizesPhase_nodup d

/-- C5 (counterexample): a size-only page (SKU container present, a size
axis present, no style axis) does not yield a record with an implicit
variant; the scrape aborts with `None` and a SKU-container snapshot. -/
theorem c5_size_only_aborts_counterexample :
    locateSkuContainer pageSizeOnly.containerHit ≠ none ∧
    find_size_sku_item pageSizeOnly.skuItems ≠ none ∧
    findStyleElements pageSizeOnly = [] ∧
    (scrape_single_product pageSizeOnly).record = none ∧
    (scrape_single_product pageSizeOnly).snapshots =
      ["debug_sku_container.html"] := by
  exact ⟨by decide, by decide, by decide, by decide, by decide⟩

/-- C5 (amended): when the SKU container is found but no style elements are
discovered by any method (the size-only shape included), the scrape does not
build an implicit variant from the size axis: it aborts, returning `None`
after persisting the SKU-container snapshot. -/
theorem c5_no_style_axis_amended (p : PageModel)
    (hc : locateSkuContainer p.containerHit ≠ none)
    (hs : findStyleElements p = []) :
    (scrape_single_product p).record = none ∧
    (scrape_single_product p).snapshots = ["debug_sku_container.html"] := by
  cases hloc : locateSkuContainer p.containerHit with
  | none => exact absurd hloc hc
  | some sel => simp [scrape_single_product, hloc, hs]

/-- C5 (witness): the amended behaviour at the concrete size-only page. -/
theorem c5_witness :
    (scrape_single_product pageSizeOnly).record = none ∧
    (scrape_single_product pageSizeOnly).snapshots =
      ["debug_sku_container.html"] :=
  c5_no_style_axis_amended pageSizeOnly (by decide) (by decide)

/-- C6: image acquisition runs the new-tab tier first and stops there when
it returns bytes; only when it returns nothing does the in-page tier run,
and its answer is final; when both tiers fail, `_download_image` returns
`None` and writes no file — every path holds what it held before or nothing
(the attempted cleanup only removes), and a path that held no file still
holds none — and the download loop appends no manifest entry for that URL
and simply continues with the remaining URLs. -/
theorem c6_tiered_acquisition (env : DownloadEnv) (url : String) :
    (∀ b, env.tier1 url = some b →
      _fetch_image_bytes env url = (some b, ["_dom_fetch_image_new_tab"])) ∧
    (env.tier1 url = none →
      _fetch_image_bytes env url =
        (env.tier2 url, ["_dom_fetch_image_new_tab", "_browser_fetch_image"])) ∧
    (env.tier1 url = none → env.tier2 url = none → url ≠ "" →
      ∀ (fs : FS) (dir pfx : String) (idx : Nat),
        (_download_image env fs url dir pfx idx).1 = none ∧
        (fsGet fs { dir := dir, pfx := pfx, index := idx, url := url } = none →
          fsGet (_download_image env fs url dir pfx idx).2
            { dir := dir, pfx := pfx, index := idx, url := url } = none) ∧
        (∀ q : LocalPath,
          fsGet (_download_image env fs url dir pfx idx).2 q = fsGet fs q ∨
          fsGet (_download_image env fs url dir pfx idx).2 q = none)) ∧
    (env.tier1 url = none → env.tier2 url = none → url ≠ "" →
      ∀ (rest : List String) (idx : Nat) (seen : List String) (fs : FS)
        (dir pfx : String), url ∉ seen →
        downloadLoop env dir pfx (url :: rest) idx seen fs =
          downloadLoop env dir pfx rest (idx + 1) (url :: seen)
            (fsTryRemove env fs { dir := dir, pfx := pfx, index := idx, url := url })) := by
  refine ⟨?_, ?_, ?_, ?_⟩
  · intro b h
    simp [_fetch_image_bytes, h]
  · intro h
    simp [_fetch_image_bytes, h]
  · intro h1 h2 hne fs dir pfx idx
    have hf : (_fetch_image_bytes env url).1 = none := by
      simp [_fetch_image_bytes, h1, h2]
    rw [_download_image, if_neg hne, hf]
    refine ⟨rfl, fun h0 => fsGet_tryRemove_self_none env fs _ h0, ?_⟩
    intro q
    by_cases hq : q = { dir := dir, pfx := pfx, index := idx, url := url }
    · rw [hq]
      exact fsGet_tryRemove_self_cases env fs _
    · exact Or.inl (fsGet_tryRemove_other env fs _ q hq)
  · intro h1 h2 hne rest idx seen fs dir pfx hseen
    have hf : (_fetch_image_bytes env url).1 = none := by
      simp [_fetch_image_bytes, h1, h2]
    have hdl : _download_image env fs url dir pfx idx =
        (none, fsTryRemove env fs { dir := dir, pfx := pfx, index := idx, url := url }) := by
      rw [_download_image, if_neg hne, hf]
    rw [downloadLoop, if_neg (by rintro (h | h); exact hne h; exact hseen h), hdl]

/-- C6 (witness): with both tiers failing, the fetch reports both tiers
consulted and returns nothing, and the download on a fresh filesystem
returns `None` and leaves no file at the computed path. -/
theorem c6_witness :
    _fetch_image_bytes envBothTiersFail "u" =
      (none, ["_dom_fetch_image_new_tab", "_browser_fetch_image"]) ∧
    (_download_image envBothTiersFail [] "u" "images/main" "main" 1).1 = none ∧
    fsGet (_download_image envBothTiersFail [] "u" "images/main" "main" 1).2
      wPath = none := by
  refine ⟨(c6_tiered_acquisition envBothTiersFail "u").2.1 rfl, ?_, ?_⟩
  · exact ((c6_tiered_acquisition envBothTiersFail "u").2.2.1 rfl rfl (by decide)
      [] "images/main" "main" 1).1
  · exact ((c6_tiered_acquisition envBothTiersFail "u").2.2.1 rfl rfl (by decide)
      [] "images/main" "main" 1).2.1 rfl

/-- C7: recognizing the same path twice in one session is idempotent — the
second call returns the memoized result (a memoized `None` included) and
leaves the state, and in particular the engine-call log, untouched — and
over any call sequence from a fresh session the engine runs at most once
per path. -/
theorem c7_ocr_memoized (env : OcrEnv) (st : OcrState) (path : String) :
    _run_ocr_from_file env ((_run_ocr_from_file env st path).2) path =
      _run_ocr_from_file env st path ∧
    (∀ paths : List String,
      ((paths.foldl (fun s q => (_run_ocr_from_file env s q).2)
          { cache := [], engineCalls := [] }).engineCalls.count path ≤ 1)) := by
  constructor
  · by_cases hp : path = ""
    · simp [_run_ocr_from_file, hp]
    · cases hs : env.fileSize path with
      | none => simp [_run_ocr_from_file, hp, hs]
      | some n =>
        cases n with
        | zero => simp [_run_ocr_from_file, hp, hs]
        | succ m =>
          cases hc : cacheLookup st.cache path with
          | some cached => simp [_run_ocr_from_file, hp, hs, hc]
          | none =>
            by_cases hcl : _get_ocr_client env
            · simp [_run_ocr_from_file, hp, hs, hc, hcl, cacheLookup_cons_self]
            · simp [_run_ocr_from_file, hp, hs, hc, hcl, cacheLookup_cons_self]
  · intro paths
    exact (ocr_fold_inv env path paths { cache := [], engineCalls := [] }
      (by simp) (by simp)).1

/-- C7 (witness): the idempotence at a concrete environment and path. -/
theorem c7_witness :
    _run_ocr_from_file envOcrX
        ((_run_ocr_from_file envOcrX { cache := [], engineCalls := [] } "p1").2) "p1" =
      _run_ocr_from_file envOcrX { cache := [], engineCalls := [] } "p1" :=
  (c7_ocr_memoized envOcrX { cache := [], engineCalls := [] } "p1").1

/-- C8: if the OCR library import or the engine initialization fails, then
from any all-`None` session state every recognition call returns `None`
(never a document) and keeps the session all-`None`, and the OCR back-fill
phase leaves the styles and the details record exactly as they were — a
valid record with empty OCR fields. -/
theorem c8_engine_unavailable_degrades (env : OcrEnv)
    (h : env.importOk = false ∨ env.initOk = false) :
    (∀ (st : OcrState) (path : String), (∀ kv ∈ st.cache, kv.2 = none) →
      (_run_ocr_from_file env st path).1 = none ∧
      (∀ kv ∈ (_run_ocr_from_file env st path).2.cache, kv.2 = none)) ∧
    (∀ (st : OcrState) (styles : List StyleFull) (details : DetailsRec)
        (mMap dMap : String → Option String), (∀ kv ∈ st.cache, kv.2 = none) →
      (runOcrPhase env st styles details mMap dMap).styles = styles ∧
      (runOcrPhase env st styles details mMap dMap).details = details) := by
  have hcl : _get_ocr_client env = false := by
    rcases h with h | h <;> simp [_get_ocr_client, h]
  constructor
  · intro st path hst
    exact ocr_unavailable_step env hcl st hst path
  · intro st styles details mMap dMap hst
    obtain ⟨ha, hb, hc⟩ := ocrMainLoop_unavailable env hcl mMap styles st hst
    obtain ⟨hd2, _⟩ := ocrDetailLoop_unavailable env hcl dMap
      details.image_details _ hc
    constructor
    · simp [runOcrPhase, ha]
    · simp [runOcrPhase, hb, hd2]

/-- C8 (witness): with a failing library import and a concrete engine that
would return text, recognition still returns `None` and the back-fill phase
returns the styles and details unchanged. -/
theorem c8_witness :
    (_run_ocr_from_file envOcrOff { cache := [], engineCalls := [] } "p1").1 = none ∧
    (runOcrPhase envOcrOff { cache := [], engineCalls := [] } wStyles detailsTwo
        (fun _ => none) dMapTwo).styles = wStyles ∧
    (runOcrPhase envOcrOff { cache := [], engineCalls := [] } wStyles detailsTwo
        (fun _ => none) dMapTwo).details = detailsTwo := by
  have h := c8_engine_unavailable_degrades envOcrOff (Or.inl rfl)
  exact ⟨(h.1 { cache := [], engineCalls := [] } "p1" (by simp)).1,
    (h.2 { cache := [], engineCalls := [] } wStyles detailsTwo
      (fun _ => none) dMapTwo (by simp)).1,
    (h.2 { cache := [], engineCalls := [] } wStyles detailsTwo
      (fun _ => none) dMapTwo (by simp)).2⟩

/-- C9 (counterexample): two distinct detail images recognized to the same
text yield a detail-image concatenation in which that text appears twice —
the detail concatenation is not deduplicated. -/
theorem c9_detail_not_deduped_counterexample :
    (runOcrPhase envOcrX { cache := [], engineCalls := [] } [] detailsTwo
        (fun _ => none) dMapTwo).detailDocs.map OcrDoc.full_text = ["X", "X"] ∧
    ¬ ((runOcrPhase envOcrX { cache := [], engineCalls := [] } [] detailsTwo
        (fun _ => none) dMapTwo).detailDocs.map OcrDoc.full_text).Nodup ∧
    (runOcrPhase envOcrX { cache := [], engineCalls := [] } [] detailsTwo
        (fun _ => none) dMapTwo).details.detail_images_ocr_text = "X\nX" := by
  exact ⟨by decide, by decide, by decide⟩

/-- C9 (amended): starting from empty OCR text fields, the main-image
concatenation is the order-preserving first-occurrence deduplication of the
collected main texts (its components are pairwise distinct, form a sublist
of the collected texts, and every collected text is represented), while the
detail-image concatenation is the plain in-order join of the non-empty
detail texts, without deduplication. -/
theorem c9_ocr_text_concat_amended (env : OcrEnv) (st : OcrState)
    (styles : List StyleFull) (details : DetailsRec)
    (mMap dMap : String → Option String) (out : OcrPhaseOut)
    (hout : out = runOcrPhase env st styles details mMap dMap)
    (hm : details.main_images_ocr_text = "")
    (hd : details.detail_images_ocr_text = "") :
    out.details.main_images_ocr_text =
      String.intercalate "\n" (dedupeBy (fun t : String => t) out.mainTexts) ∧
    (dedupeBy (fun t : String => t) out.mainTexts).Nodup ∧
    (dedupeBy (fun t : String => t) out.mainTexts).Sublist out.mainTexts ∧
    (∀ t ∈ out.mainTexts, t ∈ dedupeBy (fun t : String => t) out.mainTexts) ∧
    out.details.detail_images_ocr_text =
      String.intercalate "\n" (out.detailDocs.filterMap (fun r =>
        if r.full_text = "" then none else some r.full_text)) := by
  subst hout
  refine ⟨?_, ?_, ?_, ?_, ?_⟩
  · simp only [runOcrPhase]
    have hnil : String.intercalate "\n" ([] : List String) = "" := rfl
    have hded : dedupeBy (fun t : String => t) ([] : List String) = [] := rfl
    by_cases hdd : (ocrDetailLoop env dMap details.image_details
        (ocrMainLoop env mMap styles st).st).docs = []
    · by_cases ht : (ocrMainLoop env mMap styles st).texts = []
      · simp [hdd, ht, hm, hnil, hded]
      · simp [hdd, ht]
    · by_cases ht : (ocrMainLoop env mMap styles st).texts = []
      · simp [hdd, ht, hm, hnil, hded]
      · simp [hdd, ht]
  · have h := nodup_dedupeBy (fun t : String => t)
      (runOcrPhase env st styles details mMap dMap).mainTexts
    simpa using h
  · exact dedupeBy_sublist _ _
  · intro t ht
    obtain ⟨x, hx, hkey⟩ := dedupeBy_complete (fun t : String => t) _ t ht
    simpa [← hkey] using hx
  · simp only [runOcrPhase]
    have hnil : String.intercalate "\n" ([] : List String) = "" := rfl
    by_cases hdd : (ocrDetailLoop env dMap details.image_details
        (ocrMainLoop env mMap styles st).st).docs = []
    · by_cases ht : (ocrMainLoop env mMap styles st).texts = []
      · simp [hdd, ht, hd, hnil]
      · simp [hdd, ht, hd, hnil]
    · by_cases ht : (ocrMainLoop env mMap styles st).texts = []
      · simp [hdd, ht]
      · simp [hdd, ht]

/-- C9 (witness): the amended detail-text equation at the concrete
environment of the counterexample. -/
theorem c9_witness :
    (runOcrPhase envOcrX { cache := [], engineCalls := [] } [] detailsTwo
        (fun _ => none) dMapTwo).details.detail_images_ocr_text =
      String.intercalate "\n"
        ((runOcrPhase envOcrX { cache := [], engineCalls := [] } [] detailsTwo
            (fun _ => none) dMapTwo).detailDocs.filterMap (fun r =>
          if r.full_text = "" then none else some r.full_text)) :=
  (c9_ocr_text_concat_amended envOcrX { cache := [], engineCalls := [] } []
    detailsTwo (fun _ => none) dMapTwo _ rfl rfl rfl).2.2.2.2

/-- C10 (counterexample): with both fetch tiers failing and the cleanup
`os.remove` raising an `OSError` that the source swallows, `_download_image`
returns `None` but the pre-existing file at the computed path survives, so
the download does not guarantee that no file exists there afterwards. -/
theorem c10_remove_swallowed_counterexample :
    envRemoveFails.removeOk wPath = false ∧
    (_download_image envRemoveFails [(wPath, [9])] "u" "images/main" "main" 1).1 = none ∧
    fsGet (_download_image envRemoveFails [(wPath, [9])] "u" "images/main" "main" 1).2
      wPath = some [9] := by
  exact ⟨by decide, by decide, by decide⟩

/-- C10 (amended): for a non-empty URL, if the fetch fails or the write at
the computed path fails, `_download_image` returns `None` and attempts to
delete the file at the computed path, but the removal error is swallowed:
the path is guaranteed empty afterwards only when the removal succeeds, and
after a failed fetch a path that held no file still holds none; a manifest
entry is appended only when a local path is returned, and every manifest
entry corresponds to a successful fetch whose bytes are stored at the
entry's local path in the final filesystem. -/
theorem c10_download_cleanup_manifest (env : DownloadEnv)
    (url dir pfx : String) (idx : Nat) (fs : FS) (hurl : url ≠ "")
    (hfail : (_fetch_image_bytes env url).1 = none ∨
      env.writeOk { dir := dir, pfx := pfx, index := idx, url := url } = false) :
    ((_download_image env fs url dir pfx idx).1 = none ∧
     (env.removeOk { dir := dir, pfx := pfx, index := idx, url := url } = true →
       fsGet (_download_image env fs url dir pfx idx).2
         { dir := dir, pfx := pfx, index := idx, url := url } = none) ∧
     ((_fetch_image_bytes env url).1 = none →
       fsGet fs { dir := dir, pfx := pfx, index := idx, url := url } = none →
       fsGet (_download_image env fs url dir pfx idx).2
         { dir := dir, pfx := pfx, index := idx, url := url } = none)) ∧
    (∀ (urls : List String) (idx0 : Nat) (seen : List String) (fs0 : FS),
      ∀ ent ∈ (downloadLoop env dir pfx urls idx0 seen fs0).1,
        ∃ c, (_fetch_image_bytes env ent.url).1 = some c ∧
          fsGet (downloadLoop env dir pfx urls idx0 seen fs0).2 ent.file = some c) := by
  have hD : (_download_image env fs url dir pfx idx).1 = none ∧
      ((_download_image env fs url dir pfx idx).2 =
        fsTryRemove env fs { dir := dir, pfx := pfx, index := idx, url := url } ∨
       (_download_image env fs url dir pfx idx).2 =
        fsTryRemove env
          (applyFailedWrite env fs { dir := dir, pfx := pfx, index := idx, url := url })
          { dir := dir, pfx := pfx, index := idx, url := url }) := by
    rcases hfail with hf | hw
    · rw [_download_image, if_neg hurl, hf]
      exact ⟨rfl, Or.inl rfl⟩
    · rw [_download_image, if_neg hurl]
      cases hfetch : (_fetch_image_bytes env url).1 with
      | none => exact ⟨rfl, Or.inl rfl⟩
      | some content =>
        simp only []
        rw [if_neg (by simp [hw])]
        exact ⟨rfl, Or.inr rfl⟩
  refine ⟨⟨hD.1, ?_, ?_⟩, ?_⟩
  · intro hr
    rcases hD.2 with h2 | h2 <;> rw [h2] <;>
      exact fsGet_tryRemove_self_removeOk env _ _ hr
  · intro hf h0
    rw [_download_image, if_neg hurl, hf]
    exact fsGet_tryRemove_self_none env fs _ h0
  · intro urls idx0 seen fs0 ent hent
    exact downloadLoop_sound env dir pfx urls idx0 seen fs0 ent hent

/-- C10 (witness): with a concrete environment whose write fails (leaving a
partial file) but whose removal succeeds, the download returns `None` and
the computed path, which held a stale file, ends empty. -/
theorem c10_witness :
    (_download_image envWriteFails [(wPath, [9])] "u" "images/main" "main" 1).1 = none ∧
    fsGet (_download_image envWriteFails [(wPath, [9])] "u" "images/main" "main" 1).2
      wPath = none := by
  have h := c10_download_cleanup_manifest envWriteFails "u" "images/main" "main" 1
    [(wPath, [9])] (by decide) (Or.inr rfl)
  exact ⟨h.1.1, h.1.2.1 rfl⟩

end Scraper
